import Mathlib

/-!
A shallow embedding of the paper-analysis core of `src/paper/analyzer.js`
(the `PaperAnalyzer` class): section identification, algorithm-block
extraction and scoring, title extraction, keyword extraction and paper
classification, together with proofs of the specification claims about them.

Modelling conventions:
* JavaScript strings are modelled as lists of Unicode code points
  (`List Nat`).  `toLowerCase`/`toUpperCase` are modelled on the ASCII
  range (every vocabulary constant in the source is ASCII, so the two
  agree wherever it matters).
* JavaScript numbers are modelled as rationals (`ℚ`).  Every weight in the
  source is a small multiple of 0.05 and no verified claim depends on
  binary floating-point rounding.
* The sentence tokenizer (`natural.SentenceTokenizer`) and the noun-phrase
  extractor (`compromise`) are external npm dependencies of the analyzer;
  they are modelled as function parameters, so every theorem holds for an
  arbitrary tokenizer.
* `Array.prototype.sort` (guaranteed stable since ES2019) is modelled by
  `List.insertionSort`, which is a stable sort for the reflexive
  "greater-or-equal on the key" relation used below.
-/

namespace Inscribe

/-- A JavaScript string: a sequence of Unicode code points. -/
abbrev Str := List Nat

/-- The code points of a Lean string literal. -/
def str (s : String) : Str := s.data.map Char.toNat

/-- Model of `String.prototype.toLowerCase` on one code point (ASCII range;
code points outside `A`–`Z` are left unchanged). -/
def lowerChar (n : Nat) : Nat := if 65 ≤ n ∧ n ≤ 90 then n + 32 else n

/-- Model of `String.prototype.toUpperCase` on one code point (ASCII range). -/
def upperChar (n : Nat) : Nat := if 97 ≤ n ∧ n ≤ 122 then n - 32 else n

def toLowerStr (s : Str) : Str := s.map lowerChar

def toUpperStr (s : Str) : Str := s.map upperChar

/-- The ASCII part of JavaScript whitespace (`\s`, and the characters
stripped by `trim`): space, tab, LF, VT, FF, CR. -/
def isJsSpace (n : Nat) : Bool :=
  n == 32 || n == 9 || n == 10 || n == 11 || n == 12 || n == 13

/-- JavaScript `\d`. -/
def isDigit (n : Nat) : Bool := 48 ≤ n && n ≤ 57

/-- JavaScript `\w`: letters, digits and underscore. -/
def isWordChar (n : Nat) : Bool :=
  isDigit n || (65 ≤ n && n ≤ 90) || (97 ≤ n && n ≤ 122) || n == 95

/-- Test `leadsWith sub s`: whether `s` starts with `sub`
(model of `String.prototype.startsWith`). -/
def leadsWith : Str → Str → Bool
  | [], _ => true
  | _ :: _, [] => false
  | a :: as, b :: bs => a == b && leadsWith as bs

/-- Model of `s.includes(sub)`: substring containment. -/
def containsSub : Str → Str → Bool
  | [], sub => sub.isEmpty
  | b :: t, sub => leadsWith sub (b :: t) || containsSub t sub

/-- Model of `s.endsWith(sub)`. -/
def endsWithStr (s sub : Str) : Bool := leadsWith sub.reverse s.reverse

/-- Model of `String.prototype.trim` (ASCII whitespace). -/
def trimStr (s : Str) : Str :=
  ((s.dropWhile isJsSpace).reverse.dropWhile isJsSpace).reverse

/-- Model of `s.split(sep)` for a one-character separator. -/
def splitOnChar (sep : Nat) : Str → List Str
  | [] => [[]]
  | c :: rest =>
    if c == sep then [] :: splitOnChar sep rest
    else
      match splitOnChar sep rest with
      | [] => [[c]]
      | h :: t => (c :: h) :: t

/-- Model of `text.split("\n")` (10 = LF). -/
def splitLines (s : Str) : List Str := splitOnChar 10 s

/-- Model of `text.split("\n\n")`: leftmost-first split on a blank line. -/
def splitParas : Str → List Str
  | 10 :: 10 :: rest => [] :: splitParas rest
  | c :: rest =>
    match splitParas rest with
    | [] => [[c]]
    | h :: t => (c :: h) :: t
  | [] => [[]]

/-- Model of `parts.join(sep)`. -/
def joinSep (sep : Str) : List Str → Str
  | [] => []
  | [x] => x
  | x :: xs => x ++ sep ++ joinSep sep xs

/-- Model of `[...new Set(l)]`: deduplication keeping first occurrences. -/
def jsSetDedup : List Str → List Str
  | [] => []
  | a :: l => a :: jsSetDedup (l.filter (fun x => !(x == a)))
  termination_by l => l.length
  decreasing_by
    simp only [List.length_cons]
    exact Nat.lt_succ_of_le (List.length_filter_le _ _)

/-- Model of `l.slice(a, b)`. -/
def jsSlice (l : List α) (a b : Nat) : List α := (l.drop a).take (b - a)

/-- Model of the unanchored regex test `/\d+[\.\)]\s/` at the start of the
string: one or more digits, then `.` (46) or `)` (41), then whitespace.
`\d`, `[\.\)]` and `\s` are pairwise disjoint character classes, so greedy
matching without backtracking is exact. -/
def numListAt (s : Str) : Bool :=
  !(s.takeWhile isDigit).isEmpty &&
    match s.dropWhile isDigit with
    | 46 :: c :: _ => isJsSpace c
    | 41 :: c :: _ => isJsSpace c
    | _ => false

/-- Model of `/\d+[\.\)]\s/.test(text)` (unanchored). -/
def numListTest : Str → Bool
  | [] => false
  | c :: rest => numListAt (c :: rest) || numListTest rest

/-- Model of the anchored regex `/^\d+\.?\s/` used by `isLikelyHeader`:
digits, an optional dot, then a whitespace character. -/
def headerNumTest (s : Str) : Bool :=
  !(s.takeWhile isDigit).isEmpty &&
    match s.dropWhile isDigit with
    | 46 :: c :: _ => isJsSpace c
    | c :: _ => isJsSpace c
    | [] => false

/-- Model of `/\w+\([^)]*\)/.test(text)`: a word character immediately
before `(` (40), and some `)` (41) after it.  (`[^)]*` is greedy but `)`
is excluded from it, so the test succeeds exactly when a `)` occurs at
all after the `(`.) -/
def funcCallTest : Str → Bool
  | c :: 40 :: after => (isWordChar c && after.contains 41) || funcCallTest (40 :: after)
  | _ :: rest => funcCallTest rest
  | [] => false

/-- Helper for `arrIdxTest`: matches `\w+\]` at the start of the string
(93 = `]`). -/
def wordRunRB : Str → Bool
  | c :: rest => isWordChar c && wordRunRBAux rest
  | [] => false
where wordRunRBAux : Str → Bool
  | 93 :: _ => true
  | c :: rest => isWordChar c && wordRunRBAux rest
  | [] => false

/-- Model of `/\w+\[\w+\]/.test(text)` (91 = `[`). -/
def arrIdxTest : Str → Bool
  | c :: 91 :: after => (isWordChar c && wordRunRB after) || arrIdxTest (91 :: after)
  | _ :: rest => arrIdxTest rest
  | [] => false

/-- Model of `/^\s{2,}/.test(line)`: at least two leading whitespace
characters. -/
def indentTest : Str → Bool
  | a :: b :: _ => isJsSpace a && isJsSpace b
  | _ => false

def isUpperAlpha (n : Nat) : Bool := 65 ≤ n && n ≤ 90

def isLowerAlpha (n : Nat) : Bool := 97 ≤ n && n ≤ 122

/-- Model of `/^[A-Z][a-z]+ [A-Z][a-z]+$/.test(line)` (the
"Firstname Lastname" pattern; 32 = space). -/
def namePatternTest : Str → Bool
  | c :: rest =>
    isUpperAlpha c &&
      !(rest.takeWhile isLowerAlpha).isEmpty &&
      (match rest.dropWhile isLowerAlpha with
       | 32 :: d :: rest3 =>
         isUpperAlpha d &&
           !(rest3.takeWhile isLowerAlpha).isEmpty &&
           (rest3.dropWhile isLowerAlpha).isEmpty
       | _ => false)
  | [] => false

/-- Model of `line.replace(/^\d+\.?\s*/, "")`. -/
def stripLeadingNum (s : Str) : Str :=
  if (s.takeWhile isDigit).isEmpty then s
  else
    let r1 := s.dropWhile isDigit
    let r2 := match r1 with | 46 :: t => t | _ => r1
    r2.dropWhile isJsSpace

/-- Model of `line.replace(/\s+/g, " ")`. -/
def collapseWS : Str → Str
  | [] => []
  | [c] => if isJsSpace c then [32] else [c]
  | c1 :: c2 :: rest =>
    if isJsSpace c1 && isJsSpace c2 then collapseWS (c2 :: rest)
    else (if isJsSpace c1 then 32 else c1) :: collapseWS (c2 :: rest)

/-- Model of `line.replace(/[{}[\]]/g, "")` (code points 123, 125, 91, 93). -/
def stripBrackets (s : Str) : Str :=
  s.filter (fun c => !(c == 123 || c == 125 || c == 91 || c == 93))

/-- Model of `line.replace(/^[^\w]*/, "")`. -/
def dropNonWordFront (s : Str) : Str := s.dropWhile (fun c => !isWordChar c)

/-- Model of `line.replace(/[^\w]*$/, "")`. -/
def dropNonWordBack (s : Str) : Str :=
  (s.reverse.dropWhile (fun c => !isWordChar c)).reverse

/-! ## Fixed vocabularies (constructor of `PaperAnalyzer`) -/

def sectionHeaders : List Str :=
  [str "abstract", str "introduction", str "methodology", str "algorithm",
   str "method", str "implementation", str "approach", str "results",
   str "conclusion", str "references", str "related work", str "background",
   str "literature review", str "evaluation", str "experiment",
   str "discussion", str "future work", str "analysis"]

def algorithmKeywords : List Str :=
  [str "algorithm", str "procedure", str "function", str "method",
   str "approach", str "technique", str "strategy", str "process",
   str "step", str "iteration", str "recursive", str "iterative",
   str "sort", str "search", str "optimize", str "compute",
   str "calculate", str "traverse", str "insert", str "delete",
   str "update", str "merge", str "split", str "partition",
   str "heap", str "tree", str "graph", str "array",
   str "list", str "queue", str "stack", str "hash"]

def codeIndicators : List Str :=
  [str "pseudocode", str "code", str "implementation", str "function",
   str "variable", str "input", str "output", str "return",
   str "while", str "for", str "if", str "else",
   str "begin", str "end", str "do", str "repeat",
   str "until", str "loop"]

def mathematicalKeywords : List Str :=
  [str "theorem", str "proof", str "lemma", str "proposition",
   str "corollary", str "equation", str "formula", str "complexity",
   str "time", str "space", str "O(", str "big-o",
   str "theta", str "omega", str "logarithmic", str "polynomial",
   str "exponential", str "linear", str "quadratic", str "cubic"]

/-- The procedural discourse markers of `calculateAlgorithmConfidence`. -/
def proceduralTerms : List Str :=
  [str "first", str "then", str "next", str "finally", str "step"]

/-- The control-flow keywords of `calculateCodeConfidence`. -/
def controlFlowTerms : List Str :=
  [str "if", str "else", str "while", str "for", str "do",
   str "repeat", str "until"]

/-! ## Confidence scoring -/

/-- Model of `calculateAlgorithmConfidence`.  (The source also computes
`const doc = compromise(text)` but never uses it.) -/
def calculateAlgorithmConfidence (text : Str) : ℚ :=
  let lowerText := toLowerStr text
  let algorithmMatches := (algorithmKeywords.filter (fun k => containsSub lowerText k)).length
  let score0 : ℚ := (algorithmMatches : ℚ) * (2/10)
  let codeMatches := (codeIndicators.filter (fun k => containsSub lowerText k)).length
  let score1 : ℚ := score0 + (codeMatches : ℚ) * (15/100)
  let mathMatches := (mathematicalKeywords.filter (fun k => containsSub lowerText k)).length
  let score2 : ℚ := score1 + (mathMatches : ℚ) * (1/10)
  let proceduralMatches := (proceduralTerms.filter (fun t => containsSub lowerText t)).length
  let score3 : ℚ := score2 + (proceduralMatches : ℚ) * (1/10)
  let score4 : ℚ := score3 + (if numListTest text then 2/10 else 0)
  let score5 : ℚ := score4 + (if funcCallTest text then 15/100 else 0)
  min 1 score5

/-- Model of `calculateCodeConfidence`.  (`:=` is the two code points
58, 61; `=` is 61; `←` is 8592.) -/
def calculateCodeConfidence (text : Str) : ℚ :=
  let lowerText := toLowerStr text
  let lines := splitLines text
  let indentedLines := (lines.filter indentTest).length
  let score0 : ℚ :=
    if (indentedLines : ℚ) > (lines.length : ℚ) * (3/10) then 3/10 else 0
  let controlMatches := (controlFlowTerms.filter (fun k => containsSub lowerText k)).length
  let score1 : ℚ := score0 + (controlMatches : ℚ) * (15/100)
  let score2 : ℚ := score1 +
    (if containsSub text (str ":=") || containsSub text (str "=") ||
        containsSub text (str "←") then 2/10 else 0)
  let score3 : ℚ := score2 + (if funcCallTest text || arrIdxTest text then 2/10 else 0)
  let score4 : ℚ := score3 +
    (if containsSub lowerText (str "begin") && containsSub lowerText (str "end")
     then 3/10 else 0)
  min 1 score4

/-- Model of `extractRelevantKeywords`. -/
def extractRelevantKeywords (text : Str) : List Str :=
  let lowerText := toLowerStr text
  jsSetDedup
    ((algorithmKeywords.filter (fun k => containsSub lowerText k)) ++
     (codeIndicators.filter (fun k => containsSub lowerText k)) ++
     (mathematicalKeywords.filter (fun k => containsSub lowerText k)))

/-! ## Algorithm blocks -/

/-- The record pushed by `extractAlgorithmBlocks`.  Sentence-pass blocks
carry an `originalSentence`; paragraph-pass blocks do not. -/
structure Block where
  type : Str
  content : Str
  originalSentence : Option Str
  position : Nat
  confidence : ℚ
  keywords : List Str
deriving DecidableEq, Repr

/-- The ordering used by `.sort((a, b) => b.confidence - a.confidence)`:
`a` may come before `b` exactly when its confidence is at least `b`'s. -/
def blockGE (a b : Block) : Prop := b.confidence ≤ a.confidence

instance : DecidableRel blockGE :=
  fun a b => inferInstanceAs (Decidable (b.confidence ≤ a.confidence))

instance : IsTrans Block blockGE := ⟨fun _ _ _ h1 h2 => le_trans h2 h1⟩

instance : IsTotal Block blockGE := ⟨fun a b => le_total b.confidence a.confidence⟩

/-- The sentence-window pass of `extractAlgorithmBlocks`: every sentence
scoring above 0.3 yields an `"algorithm"` block whose content is the
window `[max(0, i-2), min(length, i+5))` joined with spaces. -/
def sentenceBlocks (sentences : List Str) : List Block :=
  sentences.enum.filterMap (fun p =>
    if 3/10 < calculateAlgorithmConfidence p.2 then
      some { type := str "algorithm",
             content := trimStr (joinSep (str " ")
               (jsSlice sentences (p.1 - 2) (min sentences.length (p.1 + 5)))),
             originalSentence := some p.2,
             position := p.1,
             confidence := calculateAlgorithmConfidence p.2,
             keywords := extractRelevantKeywords p.2 }
    else none)

/-- The paragraph pass of `extractAlgorithmBlocks`: every paragraph with
code confidence above 0.4 yields a `"pseudocode"` block. -/
def paragraphBlocks (paragraphs : List Str) : List Block :=
  paragraphs.enum.filterMap (fun p =>
    if 4/10 < calculateCodeConfidence p.2 then
      some { type := str "pseudocode",
             content := trimStr p.2,
             originalSentence := none,
             position := p.1,
             confidence := calculateCodeConfidence p.2,
             keywords := extractRelevantKeywords p.2 }
    else none)

/-- Model of `extractAlgorithmBlocks`: both passes merged, filtered at
confidence 0.3, stably sorted descending by confidence, truncated to 10.
The sentence tokenizer is the external dependency `tok`. -/
def extractAlgorithmBlocks (tok : Str → List Str) (text : Str) : List Block :=
  (List.insertionSort blockGE
    ((sentenceBlocks (tok text) ++ paragraphBlocks (splitParas text)).filter
      (fun b => decide (3/10 < b.confidence)))).take 10

/-! ## Classification -/

structure Classification where
  primaryType : Str
  scores : List (Str × Nat)
  confidence : Str
deriving DecidableEq, Repr

/-- The five fixed category buckets of `classifyPaper`, in declaration
order. -/
def classifications : List (Str × List Str) :=
  [(str "algorithm",
    [str "sort", str "search", str "tree", str "graph", str "optimization"]),
   (str "data-structure",
    [str "array", str "list", str "heap", str "hash", str "tree", str "graph"]),
   (str "machine-learning",
    [str "neural", str "learning", str "training", str "model", str "classification"]),
   (str "theoretical",
    [str "proof", str "theorem", str "complexity", str "analysis", str "bound"]),
   (str "systems",
    [str "system", str "architecture", str "implementation", str "performance"])]

/-- The ordering of `.sort(([, a], [, b]) => b - a)` on score entries. -/
def scoreGE (a b : Str × Nat) : Prop := b.2 ≤ a.2

instance : DecidableRel scoreGE := fun a b => inferInstanceAs (Decidable (b.2 ≤ a.2))

instance : IsTrans (Str × Nat) scoreGE := ⟨fun _ _ _ h1 h2 => le_trans h2 h1⟩

instance : IsTotal (Str × Nat) scoreGE := ⟨fun a b => Nat.le_total b.2 a.2⟩

/-- The `allText` of `classifyPaper`: all section contents joined with a
space and lower-cased. -/
def allTextOf (sections : List (Str × Str)) : Str :=
  toLowerStr (joinSep (str " ") (sections.map Prod.snd))

/-- The `scores` object of `classifyPaper`: for every category, the number
of its keywords occurring in `allText`. -/
def categoryScores (sections : List (Str × Str)) : List (Str × Nat) :=
  classifications.map
    (fun c => (c.1, (c.2.filter (fun k => containsSub (allTextOf sections) k)).length))

/-- Model of `classifyPaper`.  Sections are an insertion-ordered
association list (JavaScript object with non-numeric string keys). -/
def classifyPaper (sections : List (Str × Str)) (algorithmBlocks : List Block) :
    Classification :=
  { primaryType :=
      match (List.insertionSort scoreGE (categoryScores sections)).head? with
      | some p => p.1
      | none => str "unknown"
    scores := categoryScores sections
    confidence := if 0 < algorithmBlocks.length then str "high" else str "medium" }

/-! ## Keywords -/

/-- One step of the frequency count in `extractPaperKeywords`:
`nounFreq[clean] = (nounFreq[clean] || 0) + 1` on an insertion-ordered
association list. -/
def bumpFreq (m : List (Str × Nat)) (k : Str) : List (Str × Nat) :=
  if m.any (fun p => p.1 == k) then
    m.map (fun p => if p.1 == k then (p.1, p.2 + 1) else p)
  else m ++ [(k, 1)]

/-- The body of the `nouns.forEach` counting loop of
`extractPaperKeywords`. -/
def freqStep (m : List (Str × Nat)) (noun : Str) : List (Str × Nat) :=
  let clean := toLowerStr noun
  if 3 < clean.length then bumpFreq m clean else m

/-- The `nounFreq` object of `extractPaperKeywords`: lower-cased noun
phrases of length above 3, with occurrence counts, in first-occurrence
order.  (JavaScript would enumerate integer-like keys first; no claim
proved below depends on the enumeration order, only on the counts.) -/
def buildNounFreq (nouns : List Str) : List (Str × Nat) :=
  nouns.foldl freqStep []

/-- Model of `extractPaperKeywords`; `nounsOf` models the external
`compromise(text).nouns().out("array")` dependency. -/
def extractPaperKeywords (nounsOf : Str → List Str) (text : Str) : List Str :=
  ((List.insertionSort scoreGE
    ((buildNounFreq (nounsOf text)).filter (fun p => 2 < p.2))).take 15).map
    Prod.fst

/-! ## Title extraction -/

/-- The skip conditions of strategy 1 of `extractPaperTitle`
(boilerplate, length bounds, pure numerals, header words). -/
def titleSkip (line : Str) : Bool :=
  containsSub line (str "Provided proper attribution") ||
  containsSub line (str "Google hereby grants") ||
  containsSub line (str "arXiv:") ||
  containsSub line (str "@") ||
  containsSub line (str ".com") ||
  containsSub line (str "University") ||
  containsSub line (str "Department") ||
  containsSub line (str "∗") ||
  containsSub line (str "†") ||
  decide (line.length < 8) ||
  decide (150 < line.length) ||
  (!line.isEmpty && line.all isDigit) ||
  containsSub (toLowerStr line) (str "abstract") ||
  containsSub (toLowerStr line) (str "introduction") ||
  containsSub (toLowerStr line) (str "copyright") ||
  containsSub (toLowerStr line) (str "license") ||
  containsSub (toLowerStr line) (str "permission")

/-- The acceptance shape of strategy 1 of `extractPaperTitle`. -/
def titleShape (line : Str) : Bool :=
  decide (8 < line.length) && decide (line.length < 150) &&
  !(sectionHeaders.any (fun h => containsSub (toLowerStr line) h)) &&
  !containsSub line (str "Google") &&
  !containsSub line (str "Brain") &&
  !containsSub line (str "Research") &&
  !namePatternTest line &&
  !(line == toUpperStr line) &&
  decide (2 < (splitOnChar 32 line).length) &&
  decide ((splitOnChar 32 line).length < 20) &&
  !numListAt line &&
  !containsSub line (str "Figure") &&
  !containsSub line (str "Table") &&
  !containsSub line (str "Equation")

/-- The clean-up applied to an accepted strategy-1 line. -/
def cleanTitle (line : Str) : Str :=
  trimStr (dropNonWordBack (dropNonWordFront (collapseWS (stripBrackets (stripLeadingNum line)))))

/-- Strategy 1 of `extractPaperTitle`, scanning the given (already
truncated) line list in order. -/
def titleFromPatterns : List Str → Option Str
  | [] => none
  | raw :: rest =>
    let line := trimStr raw
    if titleSkip line then titleFromPatterns rest
    else if titleShape line then
      let cleaned := cleanTitle line
      if decide (10 < cleaned.length) && decide (3 ≤ (splitOnChar 32 cleaned).length)
      then some cleaned
      else titleFromPatterns rest
    else titleFromPatterns rest

/-- The acceptance test of strategy 2 of `extractPaperTitle`. -/
def titleAccept2 (line : Str) : Bool :=
  decide (15 < line.length) && decide (line.length < 120) &&
  decide (4 ≤ (splitOnChar 32 line).length) &&
  decide ((splitOnChar 32 line).length ≤ 15) &&
  !containsSub line (str "@") &&
  !containsSub line (str ".com") &&
  !containsSub line (str "arXiv") &&
  !containsSub (toLowerStr line) (str "abstract") &&
  !containsSub (toLowerStr line) (str "introduction") &&
  !(match line with | c :: _ => isDigit c | [] => false) &&
  !containsSub line (str "Figure") &&
  !containsSub line (str "Table")

/-- The lighter clean-up applied by strategy 2. -/
def cleanTitle2 (line : Str) : Str := trimStr (collapseWS (stripBrackets line))

/-- Strategy 2 of `extractPaperTitle`. -/
def titleFallback : List Str → Option Str
  | [] => none
  | raw :: rest =>
    let line := trimStr raw
    if titleAccept2 line then some (cleanTitle2 line) else titleFallback rest

/-- Model of `extractPaperTitle`: strategy 1 on the first 50 lines, then
strategy 2 on lines 5–29, then the null sentinel. -/
def extractPaperTitle (lines : List Str) : Option Str :=
  match titleFromPatterns (lines.take 50) with
  | some t => some t
  | none => titleFallback ((lines.take 30).drop 5)

/-! ## Section identification -/

/-- Model of `isLikelyHeader`. -/
def isLikelyHeader (line : Str) : Bool :=
  let isAllCaps := line == toUpperStr line && decide (2 < line.length)
  let isTitleCase := line.take 1 == toUpperStr (line.take 1)
  let isShort := decide (line.length < 100)
  let hasNoEndPeriod := !endsWithStr line (str ".")
  let hasNumber := headerNumTest line
  (isAllCaps || (isTitleCase && hasNumber)) && isShort && hasNoEndPeriod

/-- The header test of `identifySections`: the first matching entry of
`sectionHeaders`, if any. -/
def headerFind (line : Str) : Option Str :=
  let lowerLine := toLowerStr line
  sectionHeaders.find? (fun h =>
    (lowerLine == h || leadsWith h lowerLine || containsSub lowerLine h) &&
    decide (line.length < 100) && isLikelyHeader line)

/-- Model of `sections[key] = value` on a JavaScript object: overwrite in
place if the key exists, append otherwise. -/
def objSet (m : List (Str × Str)) (k v : Str) : List (Str × Str) :=
  if m.any (fun p => p.1 == k) then
    m.map (fun p => if p.1 == k then (p.1, v) else p)
  else m ++ [(k, v)]

def newline : Str := str "\n"

/-- The line-walking loop of `identifySections`, carrying the sections
object, the current section name and the accumulated content lines. -/
def sectionsLoop : List Str → List (Str × Str) → Str → List Str → List (Str × Str)
  | [], sections, currentSection, content =>
    if content.isEmpty then sections
    else objSet sections currentSection (trimStr (joinSep newline content))
  | raw :: rest, sections, currentSection, content =>
    let line := trimStr raw
    if line.isEmpty then sectionsLoop rest sections currentSection content
    else
      match headerFind line with
      | some h =>
        sectionsLoop rest
          (if content.isEmpty then sections
           else objSet sections currentSection (trimStr (joinSep newline content)))
          h []
      | none => sectionsLoop rest sections currentSection (content ++ [line])

/-- Model of `identifySections`. -/
def identifySections (text : Str) : List (Str × Str) :=
  sectionsLoop (splitLines text) [] (str "unknown") []

/-! ## Full analysis -/

structure Metrics where
  totalSections : Nat
  algorithmBlocksCount : Nat
  hasAbstract : Bool
  hasConclusion : Bool
  mainAlgorithmSection : Str
  avgConfidence : ℚ
deriving DecidableEq, Repr

structure PaperAnalysis where
  title : Str
  sections : List (Str × Str)
  algorithmBlocks : List Block
  metrics : Metrics
  keywords : List Str
  classification : Classification
deriving DecidableEq, Repr

/-- JavaScript truthiness of an object property holding a string:
present and non-empty. -/
def objGetTruthy (m : List (Str × Str)) (k : Str) : Bool :=
  match m.find? (fun p => p.1 == k) with
  | some p => !p.2.isEmpty
  | none => false

/-- JavaScript `o || d` for an optional string `o`. -/
def jsOrStr (o : Option Str) (d : Str) : Str :=
  match o with
  | some s => if s.isEmpty then d else s
  | none => d

/-- Model of `analyzeStructure`, the full pipeline; `tok` and `nounsOf`
are the two external tokenizer dependencies. -/
def analyzeStructure (tok nounsOf : Str → List Str) (text : Str) : PaperAnalysis :=
  let sections := identifySections text
  let algorithmBlocks := extractAlgorithmBlocks tok text
  let lines := (splitLines text).filter (fun l => decide (0 < (trimStr l).length))
  let potentialTitle := extractPaperTitle lines
  let algorithmSection := (sections.map Prod.fst).find? (fun key =>
    containsSub key (str "algorithm") || containsSub key (str "method") ||
    containsSub key (str "approach"))
  { title := jsOrStr potentialTitle (str "Unknown Paper")
    sections := sections
    algorithmBlocks := algorithmBlocks
    metrics :=
      { totalSections := sections.length
        algorithmBlocksCount := algorithmBlocks.length
        hasAbstract := objGetTruthy sections (str "abstract")
        hasConclusion := objGetTruthy sections (str "conclusion") ||
          objGetTruthy sections (str "discussion")
        mainAlgorithmSection := jsOrStr algorithmSection (str "unknown")
        avgConfidence :=
          if 0 < algorithmBlocks.length then
            (algorithmBlocks.map Block.confidence).sum / (algorithmBlocks.length : ℚ)
          else 0 }
    keywords := extractPaperKeywords nounsOf text
    classification := classifyPaper sections algorithmBlocks }

/-! ## Spec-side definitions

These definitions transcribe the specification's wording (not the source)
and are compared with the source-derived definitions above. -/

/-- Modelled from the spec's wording for the scoring claim: "each match is
a case-insensitive substring test". -/
def matchesCaseInsensitive (text keyword : Str) : Bool :=
  containsSub (toLowerStr text) (toLowerStr keyword)

/-- The number of keywords of `l` matched in `text`, as a rational. -/
def countMatches (l : List Str) (text : Str) : ℚ :=
  ((l.filter (fun k => containsSub (toLowerStr text) k)).length : ℚ)

/-- Modelled from the spec's wording: the algorithm-confidence formula with
case-insensitive keyword matching. -/
def specAlgorithmConfidence (text : Str) : ℚ :=
  min 1
    ((2/10) * ((algorithmKeywords.filter (fun k => matchesCaseInsensitive text k)).length : ℚ) +
     (15/100) * ((codeIndicators.filter (fun k => matchesCaseInsensitive text k)).length : ℚ) +
     (1/10) * ((mathematicalKeywords.filter (fun k => matchesCaseInsensitive text k)).length : ℚ) +
     (1/10) * ((proceduralTerms.filter (fun t => matchesCaseInsensitive text t)).length : ℚ) +
     (if numListTest text then 2/10 else 0) +
     (if funcCallTest text then 15/100 else 0))

/-- Modelled from the spec's wording for the classification claim: the
first entry (in declaration order) attaining the maximal score. -/
def firstMaxBy : List (Str × Nat) → Option (Str × Nat)
  | [] => none
  | a :: l =>
    match firstMaxBy l with
    | none => some a
    | some b => if a.2 < b.2 then some b else some a

/-- The keywords of the four category buckets other than
`machine-learning`. -/
def otherCategoryKeywords : List Str :=
  [str "sort", str "search", str "tree", str "graph", str "optimization",
   str "array", str "list", str "heap", str "hash",
   str "proof", str "theorem", str "complexity", str "analysis", str "bound",
   str "system", str "architecture", str "implementation", str "performance"]

/-- The number of noun phrases whose lower-casing equals `k`. -/
def countOcc (nouns : List Str) (k : Str) : Nat :=
  (nouns.filter (fun n => toLowerStr n == k)).length

/-! ## Helper lemmas: strings -/

lemma leadsWith_of_append {p q s : Str} (h : leadsWith (p ++ q) s = true) :
    leadsWith p s = true := by
  induction p generalizing s with
  | nil => rfl
  | cons a p ih =>
    cases s with
    | nil => simp [leadsWith] at h
    | cons b s =>
      simp only [List.cons_append, leadsWith, Bool.and_eq_true] at h ⊢
      exact ⟨h.1, ih h.2⟩

lemma containsSub_of_append {s p q : Str} (h : containsSub s (p ++ q) = true) :
    containsSub s p = true := by
  induction s with
  | nil =>
    simp only [containsSub, List.isEmpty_iff, List.append_eq_nil] at h ⊢
    exact h.1
  | cons b t ih =>
    simp only [containsSub, Bool.or_eq_true] at h ⊢
    rcases h with h | h
    · exact Or.inl (leadsWith_of_append h)
    · exact Or.inr (ih h)

lemma mem_of_leadsWith {a : Nat} {r s : Str} (h : leadsWith (a :: r) s = true) :
    a ∈ s := by
  cases s with
  | nil => simp [leadsWith] at h
  | cons b t =>
    simp only [leadsWith, Bool.and_eq_true, beq_iff_eq] at h
    exact h.1 ▸ List.mem_cons_self _ _

lemma mem_of_containsSub {s : Str} {a : Nat} {r : Str}
    (h : containsSub s (a :: r) = true) : a ∈ s := by
  induction s with
  | nil => simp [containsSub] at h
  | cons b t ih =>
    simp only [containsSub, Bool.or_eq_true] at h
    rcases h with h | h
    · exact mem_of_leadsWith h
    · exact List.mem_cons_of_mem _ (ih h)

lemma lowerChar_ne_79 (n : Nat) : lowerChar n ≠ 79 := by
  unfold lowerChar
  split <;> omega

/-- The mathematical keyword `"O("` contains an upper-case letter, so it
never occurs in a lower-cased string. -/
lemma containsSub_lower_Oparen (s : Str) :
    containsSub (toLowerStr s) (str "O(") = false := by
  cases h : containsSub (toLowerStr s) (str "O(") with
  | false => rfl
  | true =>
    exfalso
    have e : str "O(" = 79 :: [40] := by decide
    rw [e] at h
    have hm : (79 : Nat) ∈ toLowerStr s := mem_of_containsSub h
    obtain ⟨c, -, hc⟩ := List.mem_map.mp hm
    exact lowerChar_ne_79 c hc

lemma containsSub_arXiv {line : Str} (h : containsSub line (str "arXiv:") = true) :
    containsSub line (str "arXiv") = true := by
  have e : str "arXiv:" = str "arXiv" ++ [58] := by decide
  rw [e] at h
  exact containsSub_of_append h

/-! ## Helper lemmas: confidence bounds -/

lemma ite_nonneg_q {c : Prop} [Decidable c] {x : ℚ} (hx : 0 ≤ x) :
    (0 : ℚ) ≤ if c then x else 0 := by
  split
  · exact hx
  · exact le_refl 0

lemma calculateAlgorithmConfidence_nonneg (t : Str) :
    0 ≤ calculateAlgorithmConfidence t := by
  unfold calculateAlgorithmConfidence
  refine le_min (by norm_num) ?_
  exact add_nonneg
    (add_nonneg
      (add_nonneg
        (add_nonneg
          (add_nonneg (by positivity) (by positivity))
          (by positivity))
        (by positivity))
      (ite_nonneg_q (by norm_num)))
    (ite_nonneg_q (by norm_num))

lemma calculateAlgorithmConfidence_le_one (t : Str) :
    calculateAlgorithmConfidence t ≤ 1 := by
  unfold calculateAlgorithmConfidence
  exact min_le_left _ _

lemma calculateCodeConfidence_nonneg (t : Str) :
    0 ≤ calculateCodeConfidence t := by
  unfold calculateCodeConfidence
  refine le_min (by norm_num) ?_
  exact add_nonneg
    (add_nonneg
      (add_nonneg
        (add_nonneg (ite_nonneg_q (by norm_num)) (by positivity))
        (ite_nonneg_q (by norm_num)))
      (ite_nonneg_q (by norm_num)))
    (ite_nonneg_q (by norm_num))

lemma calculateCodeConfidence_le_one (t : Str) :
    calculateCodeConfidence t ≤ 1 := by
  unfold calculateCodeConfidence
  exact min_le_left _ _

/-! ## Helper lemmas: enumeration and blocks -/

lemma snd_mem_of_mem_enumFrom {α : Type} :
    ∀ (l : List α) (n : Nat) (p : Nat × α), p ∈ l.enumFrom n → p.2 ∈ l := by
  intro l
  induction l with
  | nil => intro n p h; simp [List.enumFrom] at h
  | cons a t ih =>
    intro n p h
    simp only [List.enumFrom, List.mem_cons] at h
    rcases h with h | h
    · subst h; exact List.mem_cons_self _ _
    · exact List.mem_cons_of_mem _ (ih (n + 1) p h)

lemma snd_mem_of_mem_enum {α : Type} {l : List α} {p : Nat × α}
    (h : p ∈ l.enum) : p.2 ∈ l :=
  snd_mem_of_mem_enumFrom l 0 p h

/-- Every sentence-pass block's confidence is an algorithm confidence. -/
lemma mem_sentenceBlocks {sentences : List Str} {b : Block}
    (h : b ∈ sentenceBlocks sentences) :
    ∃ s, b.confidence = calculateAlgorithmConfidence s ∧ b.type = str "algorithm" := by
  obtain ⟨p, -, he⟩ := List.mem_filterMap.mp h
  split at he
  · exact ⟨p.2, by cases he; exact ⟨rfl, rfl⟩⟩
  · exact absurd he (by simp)

/-- Every paragraph-pass block's confidence is a code confidence. -/
lemma mem_paragraphBlocks {paragraphs : List Str} {b : Block}
    (h : b ∈ paragraphBlocks paragraphs) :
    ∃ s, b.confidence = calculateCodeConfidence s ∧ b.type = str "pseudocode" := by
  obtain ⟨p, -, he⟩ := List.mem_filterMap.mp h
  split at he
  · exact ⟨p.2, by cases he; exact ⟨rfl, rfl⟩⟩
  · exact absurd he (by simp)

/-- Every block of either pass has confidence in `[0, 1]`. -/
lemma block_confidence_bounds {tok : Str → List Str} {text : Str} {b : Block}
    (h : b ∈ sentenceBlocks (tok text) ++ paragraphBlocks (splitParas text)) :
    0 ≤ b.confidence ∧ b.confidence ≤ 1 := by
  rcases List.mem_append.mp h with h | h
  · obtain ⟨s, hs, -⟩ := mem_sentenceBlocks h
    exact hs ▸ ⟨calculateAlgorithmConfidence_nonneg s, calculateAlgorithmConfidence_le_one s⟩
  · obtain ⟨s, hs, -⟩ := mem_paragraphBlocks h
    exact hs ▸ ⟨calculateCodeConfidence_nonneg s, calculateCodeConfidence_le_one s⟩

/-! ## Helper lemmas: stable-sort head is the first maximum -/

/-- The head of the stable descending sort is the first score entry (in
original order) attaining the maximal score. -/
lemma insertionSort_scoreGE_head :
    ∀ l : List (Str × Nat), (List.insertionSort scoreGE l).head? = firstMaxBy l := by
  intro l
  induction l with
  | nil => rfl
  | cons a l ih =>
    rw [List.insertionSort]
    cases hs : List.insertionSort scoreGE l with
    | nil =>
      have hl : l = [] := by
        have := List.length_insertionSort scoreGE l
        rw [hs] at this
        exact List.length_eq_zero.mp this.symm
      subst hl
      rfl
    | cons b t =>
      rw [hs] at ih
      simp only [List.head?] at ih
      rw [List.orderedInsert]
      unfold firstMaxBy
      rw [← ih]
      by_cases hr : scoreGE a b
      · rw [if_pos hr]
        have : ¬ a.2 < b.2 := not_lt.mpr hr
        simp [this]
      · rw [if_neg hr]
        have : a.2 < b.2 := lt_of_not_le hr
        simp [this]

/-- Applying `firstMaxBy` to a non-empty list returns an element of the list. -/
lemma firstMaxBy_mem :
    ∀ (l : List (Str × Nat)) (p : Str × Nat), firstMaxBy l = some p → p ∈ l := by
  intro l
  induction l with
  | nil => intro p h; simp [firstMaxBy] at h
  | cons a l ih =>
    intro p h
    unfold firstMaxBy at h
    cases hf : firstMaxBy l with
    | none => rw [hf] at h; cases h; exact List.mem_cons_self _ _
    | some b =>
      rw [hf] at h
      dsimp only at h
      by_cases hlt : a.2 < b.2
      · rw [if_pos hlt] at h
        cases h
        exact List.mem_cons_of_mem _ (ih _ hf)
      · rw [if_neg hlt] at h
        cases h
        exact List.mem_cons_self _ _

lemma firstMaxBy_cons_isSome (a : Str × Nat) (l : List (Str × Nat)) :
    ∃ p, firstMaxBy (a :: l) = some p := by
  unfold firstMaxBy
  cases firstMaxBy l with
  | none => exact ⟨a, rfl⟩
  | some b =>
    dsimp only
    split
    · exact ⟨b, rfl⟩
    · exact ⟨a, rfl⟩

/-! ## Helper lemmas: section identification -/

lemma headerFind_nil : headerFind [] = none := by decide

/-- When no line passes the header test, the section loop accumulates all
trimmed non-blank lines into the current section. -/
lemma sectionsLoop_no_header :
    ∀ (ls : List Str) (sections : List (Str × Str)) (cur : Str) (content : List Str),
      (∀ l ∈ ls, headerFind (trimStr l) = none) →
      sectionsLoop ls sections cur content =
        (if (content ++ ((ls.map trimStr).filter (fun l => !l.isEmpty))).isEmpty
         then sections
         else objSet sections cur
           (trimStr (joinSep newline
             (content ++ ((ls.map trimStr).filter (fun l => !l.isEmpty)))))) := by
  intro ls
  induction ls with
  | nil =>
    intro sections cur content _
    simp [sectionsLoop]
  | cons raw rest ih =>
    intro sections cur content h
    have hraw : headerFind (trimStr raw) = none := h raw (List.mem_cons_self _ _)
    have hrest : ∀ l ∈ rest, headerFind (trimStr l) = none :=
      fun l hl => h l (List.mem_cons_of_mem _ hl)
    rw [sectionsLoop]
    by_cases hline : (trimStr raw).isEmpty
    · rw [if_pos hline, ih sections cur content hrest]
      simp [hline]
    · rw [if_neg hline]
      rw [hraw]
      rw [ih sections cur (content ++ [trimStr raw]) hrest]
      simp [hline, List.append_assoc]

/-! ## Helper lemmas: noun-frequency invariant -/

lemma lowerChar_idem (n : Nat) : lowerChar (lowerChar n) = lowerChar n := by
  unfold lowerChar
  split_ifs <;> omega

lemma toLowerStr_idem (s : Str) : toLowerStr (toLowerStr s) = toLowerStr s := by
  induction s with
  | nil => rfl
  | cons c t ih =>
    show lowerChar (lowerChar c) :: toLowerStr (toLowerStr t) = lowerChar c :: toLowerStr t
    rw [lowerChar_idem, ih]

lemma toLowerStr_length (s : Str) : (toLowerStr s).length = s.length :=
  List.length_map _ _

lemma countOcc_append (processed : List Str) (n k : Str) :
    countOcc (processed ++ [n]) k =
      countOcc processed k + (if toLowerStr n = k then 1 else 0) := by
  unfold countOcc
  rw [List.filter_append, List.length_append]
  congr 1
  by_cases h : toLowerStr n = k
  · have hb : (toLowerStr n == k) = true := beq_iff_eq.mpr h
    simp [List.filter, hb, h]
  · have hb : (toLowerStr n == k) = false := beq_eq_false_iff_ne.mpr h
    simp [List.filter, hb, h]

/-- The invariant maintained by the noun-frequency loop over the already
processed prefix of the noun list. -/
def FreqInv (processed : List Str) (m : List (Str × Nat)) : Prop :=
  (m.map Prod.fst).Nodup ∧
  (∀ p ∈ m, 3 < p.1.length ∧ toLowerStr p.1 = p.1 ∧ p.2 = countOcc processed p.1) ∧
  (∀ n ∈ processed, 3 < (toLowerStr n).length → toLowerStr n ∈ m.map Prod.fst)

lemma freqStep_inv {processed : List Str} {m : List (Str × Nat)}
    (hInv : FreqInv processed m) (n : Str) :
    FreqInv (processed ++ [n]) (freqStep m n) := by
  obtain ⟨hnd, hmem, hcomp⟩ := hInv
  unfold freqStep
  by_cases hlen : 3 < (toLowerStr n).length
  · rw [if_pos hlen]
    unfold bumpFreq
    by_cases hany : m.any (fun p => p.1 == toLowerStr n)
    · rw [if_pos hany]
      have hkeys : (m.map (fun p => if p.1 == toLowerStr n then (p.1, p.2 + 1) else p)).map
          Prod.fst = m.map Prod.fst := by
        rw [List.map_map]
        apply List.map_congr_left
        intro p _
        by_cases hp : p.1 = toLowerStr n <;> simp [hp]
      refine ⟨by rw [hkeys]; exact hnd, ?_, ?_⟩
      · intro p' hp'
        obtain ⟨p, hp, he⟩ := List.mem_map.mp hp'
        obtain ⟨h1, h2, h3⟩ := hmem p hp
        by_cases hpk : p.1 = toLowerStr n
        · rw [if_pos (beq_iff_eq.mpr hpk)] at he
          subst he
          refine ⟨h1, h2, ?_⟩
          show p.2 + 1 = countOcc (processed ++ [n]) p.1
          rw [countOcc_append, if_pos hpk.symm, h3]
        · rw [if_neg (fun hb => hpk (beq_iff_eq.mp hb))] at he
          subst he
          refine ⟨h1, h2, ?_⟩
          rw [countOcc_append, if_neg (fun he2 => hpk he2.symm)]
          omega
      · intro n' hn' hlen'
        rw [hkeys]
        rcases List.mem_append.mp hn' with hn' | hn'
        · exact hcomp n' hn' hlen'
        · have : n' = n := by simpa using hn'
          subst this
          obtain ⟨p, hp, hpk⟩ := List.any_eq_true.mp hany
          have hpe : p.1 = toLowerStr n' := beq_iff_eq.mp hpk
          rw [← hpe]
          exact List.mem_map_of_mem Prod.fst hp
    · rw [if_neg hany]
      have hnot : toLowerStr n ∉ m.map Prod.fst := by
        intro hc
        obtain ⟨p, hp, he⟩ := List.mem_map.mp hc
        exact hany (List.any_eq_true.mpr ⟨p, hp, beq_iff_eq.mpr he⟩)
      refine ⟨?_, ?_, ?_⟩
      · rw [List.map_append]
        exact List.Nodup.append hnd (List.nodup_singleton _)
          (fun a ha hb => by
            have : a = toLowerStr n := by simpa using hb
            exact hnot (this ▸ ha))
      · intro p hp
        rcases List.mem_append.mp hp with hp | hp
        · obtain ⟨h1, h2, h3⟩ := hmem p hp
          refine ⟨h1, h2, ?_⟩
          have hne : ¬ toLowerStr n = p.1 :=
            fun he => hnot (by rw [he]; exact List.mem_map_of_mem Prod.fst hp)
          rw [countOcc_append, if_neg hne]
          omega
        · have hpe : p = (toLowerStr n, 1) := by simpa using hp
          subst hpe
          refine ⟨hlen, toLowerStr_idem n, ?_⟩
          have hzero : countOcc processed (toLowerStr n) = 0 := by
            by_contra hc
            have hpos : 0 < countOcc processed (toLowerStr n) := Nat.pos_of_ne_zero hc
            unfold countOcc at hpos
            obtain ⟨n', hn'⟩ := List.exists_mem_of_length_pos hpos
            have hn'2 := List.mem_filter.mp hn'
            have he : toLowerStr n' = toLowerStr n := beq_iff_eq.mp hn'2.2
            have hmm := hcomp n' hn'2.1 (by rw [he]; exact hlen)
            rw [he] at hmm
            exact hnot hmm
          show 1 = countOcc (processed ++ [n]) (toLowerStr n)
          rw [countOcc_append, if_pos rfl, hzero]
      · intro n' hn' hlen'
        rw [List.map_append]
        rcases List.mem_append.mp hn' with hn' | hn'
        · exact List.mem_append_left _ (hcomp n' hn' hlen')
        · have : n' = n := by simpa using hn'
          subst this
          apply List.mem_append_right
          simp
  · rw [if_neg hlen]
    refine ⟨hnd, ?_, ?_⟩
    · intro p hp
      obtain ⟨h1, h2, h3⟩ := hmem p hp
      refine ⟨h1, h2, ?_⟩
      have hne : ¬ toLowerStr n = p.1 :=
        fun he => hlen (by rw [he]; exact h1)
      rw [countOcc_append, if_neg hne]
      omega
    · intro n' hn' hlen'
      rcases List.mem_append.mp hn' with hn' | hn'
      · exact hcomp n' hn' hlen'
      · have : n' = n := by simpa using hn'
        subst this
        exact absurd hlen' hlen

lemma foldl_freqStep_inv :
    ∀ (rest processed : List Str) (m : List (Str × Nat)),
      FreqInv processed m → FreqInv (processed ++ rest) (rest.foldl freqStep m) := by
  intro rest
  induction rest with
  | nil =>
    intro processed m h
    simpa using h
  | cons n rest ih =>
    intro processed m h
    have h3 := ih (processed ++ [n]) (freqStep m n) (freqStep_inv h n)
    simpa [List.append_assoc] using h3

lemma buildNounFreq_inv (nouns : List Str) : FreqInv nouns (buildNounFreq nouns) := by
  have h0 : FreqInv [] [] := ⟨List.nodup_nil, by simp, by simp⟩
  have := foldl_freqStep_inv nouns [] [] h0
  simpa [buildNounFreq] using this

/-! ## Helper lemmas: title extraction -/

lemma titleFromPatterns_some :
    ∀ (ls : List Str) (t : Str), titleFromPatterns ls = some t →
      ∃ raw ∈ ls, titleSkip (trimStr raw) = false ∧ t = cleanTitle (trimStr raw) := by
  intro ls
  induction ls with
  | nil => intro t h; simp [titleFromPatterns] at h
  | cons raw rest ih =>
    intro t h
    simp only [titleFromPatterns] at h
    split at h
    · obtain ⟨r, hr, h2⟩ := ih t h
      exact ⟨r, List.mem_cons_of_mem _ hr, h2⟩
    · rename_i hskip
      split at h
      · split at h
        · cases h
          exact ⟨raw, List.mem_cons_self _ _, by simpa using hskip, rfl⟩
        · obtain ⟨r, hr, h2⟩ := ih t h
          exact ⟨r, List.mem_cons_of_mem _ hr, h2⟩
      · obtain ⟨r, hr, h2⟩ := ih t h
        exact ⟨r, List.mem_cons_of_mem _ hr, h2⟩

lemma titleFallback_some :
    ∀ (ls : List Str) (t : Str), titleFallback ls = some t →
      ∃ raw ∈ ls, titleAccept2 (trimStr raw) = true ∧ t = cleanTitle2 (trimStr raw) := by
  intro ls
  induction ls with
  | nil => intro t h; simp [titleFallback] at h
  | cons raw rest ih =>
    intro t h
    simp only [titleFallback] at h
    split at h
    · cases h
      rename_i hacc
      exact ⟨raw, List.mem_cons_self _ _, hacc, rfl⟩
    · obtain ⟨r, hr, h2⟩ := ih t h
      exact ⟨r, List.mem_cons_of_mem _ hr, h2⟩

/-- A line rejected by no strategy-1 skip rule contains neither `"@"` nor
`"arXiv:"`. -/
lemma titleSkip_false_no_at {line : Str} (h : titleSkip line = false) :
    containsSub line (str "@") = false ∧ containsSub line (str "arXiv:") = false := by
  unfold titleSkip at h
  simp only [Bool.or_eq_false_iff] at h
  exact ⟨h.1.1.1.1.1.1.1.1.1.1.1.1.1.2, h.1.1.1.1.1.1.1.1.1.1.1.1.1.1.2⟩

/-- A line accepted by strategy 2 contains neither `"@"` nor `"arXiv:"`. -/
lemma titleAccept2_true_no_at {line : Str} (h : titleAccept2 line = true) :
    containsSub line (str "@") = false ∧ containsSub line (str "arXiv:") = false := by
  unfold titleAccept2 at h
  simp only [Bool.and_eq_true, Bool.not_eq_true'] at h
  refine ⟨h.1.1.1.1.1.1.1.2, ?_⟩
  have harx : containsSub line (str "arXiv") = false := h.1.1.1.1.1.2
  cases hc : containsSub line (str "arXiv:") with
  | false => rfl
  | true => exact absurd (containsSub_arXiv hc) (by rw [harx]; exact Bool.false_ne_true)

/-! ## Claims -/

/-- Claim C1. For every sentence tokenizer and every input string,
`extractAlgorithmBlocks` returns a list of at most 10 blocks, sorted
non-increasing by confidence, every block's confidence lies in `[0, 1]`,
and every returned block has confidence strictly greater than 0.3. -/
theorem C1_extractAlgorithmBlocks_invariants (tok : Str → List Str) (text : Str) :
    (extractAlgorithmBlocks tok text).length ≤ 10 ∧
    List.Sorted blockGE (extractAlgorithmBlocks tok text) ∧
    ∀ b ∈ extractAlgorithmBlocks tok text,
      (0 ≤ b.confidence ∧ b.confidence ≤ 1) ∧ 3/10 < b.confidence := by
  unfold extractAlgorithmBlocks
  refine ⟨List.length_take_le _ _,
    List.Pairwise.sublist (List.take_sublist _ _)
      (List.sorted_insertionSort blockGE _), ?_⟩
  intro b hb
  have hb2 := List.take_subset _ _ hb
  rw [List.mem_insertionSort] at hb2
  have hb3 := List.mem_filter.mp hb2
  exact ⟨block_confidence_bounds hb3.1, of_decide_eq_true hb3.2⟩

/-- Claim C2. The full analysis pipeline is a deterministic pure function of
its input (given the two fixed external tokenizer dependencies): running
`analyzeStructure` on identical texts yields identical `PaperAnalysis`
records.  Determinism is structural in this embedding: the source consults
no randomness, time or other ambient state, so its model is a plain
function. -/
theorem C2_analyzeStructure_deterministic (tok nounsOf : Str → List Str)
    (text₁ text₂ : Str) (h : text₁ = text₂) :
    analyzeStructure tok nounsOf text₁ = analyzeStructure tok nounsOf text₂ := by
  rw [h]

theorem C2_analyzeStructure_deterministic_witness :
    analyzeStructure (fun _ => []) (fun _ => []) (str "determinism test")
      = analyzeStructure (fun _ => []) (fun _ => []) (str "determinism test") :=
  C2_analyzeStructure_deterministic (fun _ => []) (fun _ => [])
    (str "determinism test") (str "determinism test") rfl

/-- Claim C3, counterexample. The claim says every keyword match is a
case-insensitive substring test.  On the input `"O("` the spec formula
(with case-insensitive matching, `specAlgorithmConfidence`) scores 0.1 for
the mathematical keyword `"O("`, but the code lower-cases the text and
then searches for the verbatim keyword `"O("`, which contains an
upper-case letter and can never match: the code scores 0. -/
theorem C3_confidence_formula_counterexample :
    calculateAlgorithmConfidence (str "O(") = 0 ∧
    specAlgorithmConfidence (str "O(") = 1/10 ∧
    calculateAlgorithmConfidence (str "O(") ≠ specAlgorithmConfidence (str "O(") := by
  have h1 : calculateAlgorithmConfidence (str "O(") = 0 := by
    simp only [calculateAlgorithmConfidence]
    rw [show (algorithmKeywords.filter (fun k => containsSub (toLowerStr (str "O(")) k)).length = 0 by decide]
    rw [show (codeIndicators.filter (fun k => containsSub (toLowerStr (str "O(")) k)).length = 0 by decide]
    rw [show (mathematicalKeywords.filter (fun k => containsSub (toLowerStr (str "O(")) k)).length = 0 by decide]
    rw [show (proceduralTerms.filter (fun t => containsSub (toLowerStr (str "O(")) t)).length = 0 by decide]
    rw [show numListTest (str "O(") = false by decide]
    rw [show funcCallTest (str "O(") = false by decide]
    norm_num
  have h2 : specAlgorithmConfidence (str "O(") = 1/10 := by
    simp only [specAlgorithmConfidence]
    rw [show (algorithmKeywords.filter (fun k => matchesCaseInsensitive (str "O(") k)).length = 0 by decide]
    rw [show (codeIndicators.filter (fun k => matchesCaseInsensitive (str "O(") k)).length = 0 by decide]
    rw [show (mathematicalKeywords.filter (fun k => matchesCaseInsensitive (str "O(") k)).length = 1 by decide]
    rw [show (proceduralTerms.filter (fun t => matchesCaseInsensitive (str "O(") t)).length = 0 by decide]
    rw [show numListTest (str "O(") = false by decide]
    rw [show funcCallTest (str "O(") = false by decide]
    norm_num
  exact ⟨h1, h2, by rw [h1, h2]; norm_num⟩

/-- Claim C3, amended. The algorithm-confidence score equals
min(1.0, 0.2·#algorithmic + 0.15·#code + 0.1·#mathematical +
0.1·#procedural + 0.2 if a numbered-list pattern occurs + 0.15 if a
function-call shape occurs), where each keyword match tests whether the
keyword occurs verbatim as a substring of the lower-cased sentence.  This
is case-insensitive in effect for every keyword except `"O("`, which
contains an upper-case letter and therefore never matches. -/
theorem C3_confidence_formula_amended (text : Str) :
    calculateAlgorithmConfidence text =
      min 1
        ((2/10) * countMatches algorithmKeywords text +
         (15/100) * countMatches codeIndicators text +
         (1/10) * countMatches mathematicalKeywords text +
         (1/10) * countMatches proceduralTerms text +
         (if numListTest text then 2/10 else 0) +
         (if funcCallTest text then 15/100 else 0)) ∧
    containsSub (toLowerStr text) (str "O(") = false := by
  constructor
  · unfold calculateAlgorithmConfidence countMatches
    ring_nf
  · exact containsSub_lower_Oparen text

/-- The primary type produced by `classifyPaper` is the first category (in
declaration order) attaining the maximal keyword-count score, because the
comparison sort is stable. -/
lemma classifyPaper_primaryType_eq (sections : List (Str × Str)) (blocks : List Block) :
    (classifyPaper sections blocks).primaryType =
      match firstMaxBy (categoryScores sections) with
      | some p => p.1
      | none => str "unknown" := by
  show (match (List.insertionSort scoreGE (categoryScores sections)).head? with
        | some p => p.1 | none => str "unknown") = _
  rw [insertionSort_scoreGE_head]

lemma firstMaxBy_ml (M : Nat) (hM : 0 < M) :
    firstMaxBy [(str "algorithm", 0), (str "data-structure", 0),
                (str "machine-learning", M), (str "theoretical", 0),
                (str "systems", 0)] = some (str "machine-learning", M) := by
  simp [firstMaxBy, hM, Nat.not_lt_zero]

/-- Claim C4. The category with the highest count of present keywords wins,
with ties resolved by category declaration order; in particular, on
sections whose lower-cased joined content contains `"neural"`,
`"training"` and `"model"` and no keyword of any other category bucket,
`classifyPaper` returns primary type `"machine-learning"`.  (Occurrence
multiplicity is irrelevant: the source tests mere presence, so containing
each word three times is subsumed by containing it at all.) -/
theorem C4_classifyPaper_machine_learning (sections : List (Str × Str)) (blocks : List Block) :
    ((classifyPaper sections blocks).primaryType =
      match firstMaxBy (categoryScores sections) with
      | some p => p.1
      | none => str "unknown") ∧
    (containsSub (allTextOf sections) (str "neural") = true →
     containsSub (allTextOf sections) (str "training") = true →
     containsSub (allTextOf sections) (str "model") = true →
     (∀ kw ∈ otherCategoryKeywords, containsSub (allTextOf sections) kw = false) →
     (classifyPaper sections blocks).primaryType = str "machine-learning") := by
  refine ⟨classifyPaper_primaryType_eq sections blocks, ?_⟩
  intro hn ht hm hother
  have e01 : containsSub (allTextOf sections) (str "sort") = false := hother _ (by decide)
  have e02 : containsSub (allTextOf sections) (str "search") = false := hother _ (by decide)
  have e03 : containsSub (allTextOf sections) (str "tree") = false := hother _ (by decide)
  have e04 : containsSub (allTextOf sections) (str "graph") = false := hother _ (by decide)
  have e05 : containsSub (allTextOf sections) (str "optimization") = false := hother _ (by decide)
  have e06 : containsSub (allTextOf sections) (str "array") = false := hother _ (by decide)
  have e07 : containsSub (allTextOf sections) (str "list") = false := hother _ (by decide)
  have e08 : containsSub (allTextOf sections) (str "heap") = false := hother _ (by decide)
  have e09 : containsSub (allTextOf sections) (str "hash") = false := hother _ (by decide)
  have e10 : containsSub (allTextOf sections) (str "proof") = false := hother _ (by decide)
  have e11 : containsSub (allTextOf sections) (str "theorem") = false := hother _ (by decide)
  have e12 : containsSub (allTextOf sections) (str "complexity") = false := hother _ (by decide)
  have e13 : containsSub (allTextOf sections) (str "analysis") = false := hother _ (by decide)
  have e14 : containsSub (allTextOf sections) (str "bound") = false := hother _ (by decide)
  have e15 : containsSub (allTextOf sections) (str "system") = false := hother _ (by decide)
  have e16 : containsSub (allTextOf sections) (str "architecture") = false := hother _ (by decide)
  have e17 : containsSub (allTextOf sections) (str "implementation") = false := hother _ (by decide)
  have e18 : containsSub (allTextOf sections) (str "performance") = false := hother _ (by decide)
  have halg : (([str "sort", str "search", str "tree", str "graph",
      str "optimization"]).filter (fun k => containsSub (allTextOf sections) k)).length = 0 := by
    simp [List.filter, e01, e02, e03, e04, e05]
  have hds : (([str "array", str "list", str "heap", str "hash", str "tree",
      str "graph"]).filter (fun k => containsSub (allTextOf sections) k)).length = 0 := by
    simp [List.filter, e06, e07, e08, e09, e03, e04]
  have hth : (([str "proof", str "theorem", str "complexity", str "analysis",
      str "bound"]).filter (fun k => containsSub (allTextOf sections) k)).length = 0 := by
    simp [List.filter, e10, e11, e12, e13, e14]
  have hsys : (([str "system", str "architecture", str "implementation",
      str "performance"]).filter (fun k => containsSub (allTextOf sections) k)).length = 0 := by
    simp [List.filter, e15, e16, e17, e18]
  have hml : 0 < (([str "neural", str "learning", str "training", str "model",
      str "classification"]).filter (fun k => containsSub (allTextOf sections) k)).length := by
    have hmem : str "neural" ∈ ([str "neural", str "learning", str "training",
        str "model", str "classification"]).filter
          (fun k => containsSub (allTextOf sections) k) :=
      List.mem_filter.mpr ⟨by simp, hn⟩
    exact List.length_pos.mpr (List.ne_nil_of_mem hmem)
  have hscores : categoryScores sections =
      [(str "algorithm", 0), (str "data-structure", 0),
       (str "machine-learning",
         (([str "neural", str "learning", str "training", str "model",
            str "classification"]).filter
              (fun k => containsSub (allTextOf sections) k)).length),
       (str "theoretical", 0), (str "systems", 0)] := by
    simp only [categoryScores, classifications, List.map_cons, List.map_nil]
    rw [halg, hds, hth, hsys]
  rw [classifyPaper_primaryType_eq, hscores, firstMaxBy_ml _ hml]

theorem C4_classifyPaper_machine_learning_witness :
    (classifyPaper [(str "abstract", str "neural training model")] []).primaryType
      = str "machine-learning" :=
  (C4_classifyPaper_machine_learning [(str "abstract", str "neural training model")] []).2
    (by decide) (by decide) (by decide) (by decide)

/-- Claim C10. For every sections mapping and block list, `classifyPaper`
returns one of the five fixed category names (the `"unknown"` fallback is
unreachable), and an empty sections mapping (all scores zero) classifies
as `"algorithm"` by declaration order. -/
theorem C10_classifyPaper_primaryType_total (sections : List (Str × Str)) (blocks : List Block) :
    (classifyPaper sections blocks).primaryType ∈
      [str "algorithm", str "data-structure", str "machine-learning",
       str "theoretical", str "systems"] ∧
    (classifyPaper [] blocks).primaryType = str "algorithm" := by
  constructor
  · rw [classifyPaper_primaryType_eq]
    have hsh : categoryScores sections =
        (str "algorithm",
          (([str "sort", str "search", str "tree", str "graph",
             str "optimization"]).filter
               (fun k => containsSub (allTextOf sections) k)).length) ::
        classifications.tail.map
          (fun c => (c.1, (c.2.filter (fun k => containsSub (allTextOf sections) k)).length)) := by
      simp [categoryScores, classifications]
    have hex : ∃ p, firstMaxBy (categoryScores sections) = some p := by
      rw [hsh]
      exact firstMaxBy_cons_isSome _ _
    obtain ⟨p, hp⟩ := hex
    rw [hp]
    have hpm := firstMaxBy_mem _ _ hp
    rw [hsh] at hpm
    simp only [classifications, List.tail_cons, List.map_cons, List.map_nil,
      List.mem_cons, List.mem_singleton] at hpm
    rcases hpm with h | h | h | h | h | h <;> first
      | (rw [h]; simp)
      | simp at h
  · rw [classifyPaper_primaryType_eq]
    rw [show firstMaxBy (categoryScores []) = some (str "algorithm", 0) from by decide]

/-- Claim C5, counterexample. The claim says every non-empty text with no
header line yields exactly the mapping `{"unknown": whole document}`.
Two refutations at concrete inputs: the non-empty whitespace-only text
`" "` has no header line yet yields the *empty* mapping, and on
`"a \nb"` the `"unknown"` content is `"a\nb"` — the trimmed non-blank
lines rejoined — not the verbatim document `"a \nb"`. -/
theorem C5_identifySections_counterexample :
    (str " " ≠ [] ∧ (∀ l ∈ splitLines (str " "), headerFind (trimStr l) = none) ∧
      identifySections (str " ") = []) ∧
    (∀ l ∈ splitLines (str "a \nb"), headerFind (trimStr l) = none) ∧
    identifySections (str "a \nb") = [(str "unknown", str "a\nb")] ∧
    str "a\nb" ≠ str "a \nb" := by
  exact ⟨⟨by decide, by decide, by decide⟩, by decide, by decide, by decide⟩

/-- Claim C5, amended. For every input text having at least one line that is
non-blank after trimming, if no line passes the header-detection test then
`identifySections` returns a mapping with exactly one key, `"unknown"`,
whose content is the sequence of trimmed non-blank lines joined by
newlines (the whole document up to line-level whitespace normalisation). -/
theorem C5_identifySections_no_header_amended (text : Str)
    (hhdr : ∀ l ∈ splitLines text, headerFind (trimStr l) = none)
    (hnonblank : ((splitLines text).map trimStr).filter (fun l => !l.isEmpty) ≠ []) :
    identifySections text =
      [(str "unknown",
        trimStr (joinSep newline
          (((splitLines text).map trimStr).filter (fun l => !l.isEmpty))))] := by
  unfold identifySections
  rw [sectionsLoop_no_header (splitLines text) [] (str "unknown") [] hhdr]
  simp only [List.nil_append]
  rw [if_neg (by rw [List.isEmpty_iff]; exact hnonblank)]
  simp [objSet]

theorem C5_identifySections_no_header_amended_witness :
    identifySections (str "Hello world") = [(str "unknown", str "Hello world")] := by
  have h := C5_identifySections_no_header_amended (str "Hello world")
    (by decide) (by decide)
  rw [h]
  decide

/-- Claim C8. The function `identifySections` is total — the embedding is a plain
function built from total string operations, mirroring the fact that the
source cannot throw — and on an empty or whitespace-only document (every
line trims to the empty string) it returns an empty mapping. -/
theorem C8_identifySections_whitespace_empty (text : Str)
    (h : ∀ l ∈ splitLines text, trimStr l = []) :
    identifySections text = [] := by
  unfold identifySections
  have hhdr : ∀ l ∈ splitLines text, headerFind (trimStr l) = none := by
    intro l hl
    rw [h l hl]
    exact headerFind_nil
  rw [sectionsLoop_no_header _ _ _ _ hhdr]
  have hfil : ((splitLines text).map trimStr).filter (fun l => !l.isEmpty) = [] := by
    rw [List.filter_eq_nil_iff]
    intro a ha
    obtain ⟨l, hl, he⟩ := List.mem_map.mp ha
    rw [← he, h l hl]
    simp
  rw [hfil]
  simp

theorem C8_identifySections_whitespace_empty_witness :
    identifySections (str " \n  ") = [] :=
  C8_identifySections_whitespace_empty (str " \n  ") (by decide)

/-- The code confidence of the paragraph `"begin if end"`: 0.15 for the
control-flow keyword `"if"` plus 0.3 for containing both `"begin"` and
`"end"`. -/
lemma codeConf_begin_if_end : calculateCodeConfidence (str "begin if end") = 9/20 := by
  simp only [calculateCodeConfidence]
  rw [show splitLines (str "begin if end") = [str "begin if end"] from by decide]
  rw [show List.filter indentTest [str "begin if end"] = [] from by decide]
  rw [show controlFlowTerms.filter
    (fun k => containsSub (toLowerStr (str "begin if end")) k) = [str "if"] from by decide]
  rw [show containsSub (str "begin if end") (str ":=") = false from by decide]
  rw [show containsSub (str "begin if end") (str "=") = false from by decide]
  rw [show containsSub (str "begin if end") (str "←") = false from by decide]
  rw [show funcCallTest (str "begin if end") = false from by decide]
  rw [show arrIdxTest (str "begin if end") = false from by decide]
  rw [show containsSub (toLowerStr (str "begin if end")) (str "begin") = true from by decide]
  rw [show containsSub (toLowerStr (str "begin if end")) (str "end") = true from by decide]
  norm_num [min_def]

lemma paragraphBlocks_begin_if_end :
    paragraphBlocks [str "begin if end"] =
      [{ type := str "pseudocode",
         content := trimStr (str "begin if end"),
         originalSentence := none,
         position := 0,
         confidence := 9/20,
         keywords := extractRelevantKeywords (str "begin if end") }] := by
  unfold paragraphBlocks
  rw [show ([str "begin if end"]).enum = [(0, str "begin if end")] from rfl]
  rw [List.filterMap_cons, List.filterMap_nil]
  dsimp only
  rw [codeConf_begin_if_end]
  rw [if_pos (by norm_num : (4/10 : ℚ) < 9/20)]

/-- Claim C9, counterexample. The claim says an empty sentence segmentation
forces an empty result.  With a tokenizer returning no sentences on the
one-paragraph document `"begin if end"`, the paragraph pass still emits a
pseudocode block (code confidence 0.45 > 0.4), so the result is
non-empty. -/
theorem C9_no_sentences_counterexample :
    (fun _ : Str => ([] : List Str)) (str "begin if end") = [] ∧
    extractAlgorithmBlocks (fun _ => []) (str "begin if end") ≠ [] := by
  refine ⟨rfl, ?_⟩
  unfold extractAlgorithmBlocks
  rw [show sentenceBlocks ((fun _ : Str => ([] : List Str)) (str "begin if end")) = []
    from rfl]
  rw [List.nil_append]
  rw [show splitParas (str "begin if end") = [str "begin if end"] from by decide]
  rw [paragraphBlocks_begin_if_end]
  simp only [List.filter_cons, List.filter_nil]
  rw [if_pos (decide_eq_true (by norm_num))]
  simp [List.insertionSort, List.orderedInsert]

/-- Claim C9, amended. If the sentence segmentation of the input is empty,
every block returned by `extractAlgorithmBlocks` comes from the paragraph
pass (type `"pseudocode"`); in particular, if additionally no paragraph
scores a code confidence above 0.4 — e.g. on the empty document — the
result is the empty list. -/
theorem C9_no_sentences_amended (tok : Str → List Str) (text : Str)
    (hTok : tok text = []) :
    (∀ b ∈ extractAlgorithmBlocks tok text, b.type = str "pseudocode") ∧
    ((∀ p ∈ splitParas text, calculateCodeConfidence p ≤ 4/10) →
      extractAlgorithmBlocks tok text = []) := by
  constructor
  · intro b hb
    unfold extractAlgorithmBlocks at hb
    rw [hTok] at hb
    have hb2 := List.take_subset _ _ hb
    rw [List.mem_insertionSort] at hb2
    have hb3 := (List.mem_filter.mp hb2).1
    rw [show sentenceBlocks [] = [] from rfl, List.nil_append] at hb3
    obtain ⟨s, -, htype⟩ := mem_paragraphBlocks hb3
    exact htype
  · intro hp
    unfold extractAlgorithmBlocks
    rw [hTok]
    rw [show sentenceBlocks [] = [] from rfl, List.nil_append]
    have hpar : paragraphBlocks (splitParas text) = [] := by
      unfold paragraphBlocks
      rw [List.filterMap_eq_nil_iff]
      intro a ha
      have hle := hp a.2 (snd_mem_of_mem_enum ha)
      exact if_neg (not_lt.mpr hle)
    rw [hpar]
    rfl

theorem C9_no_sentences_amended_witness :
    (∀ b ∈ extractAlgorithmBlocks (fun _ => []) (str ""), b.type = str "pseudocode") ∧
    extractAlgorithmBlocks (fun _ => []) (str "") = [] := by
  have h := C9_no_sentences_amended (fun _ => []) (str "") rfl
  refine ⟨h.1, h.2 ?_⟩
  intro p hp
  have hp2 : p = [] := by
    have : splitParas (str "") = [[]] := by decide
    rw [this] at hp
    simpa using hp
  subst hp2
  have hconf : calculateCodeConfidence [] = 0 := by
    simp only [calculateCodeConfidence]
    rw [show splitLines [] = [[]] from by decide]
    rw [show List.filter indentTest [([] : Str)] = [] from by decide]
    rw [show controlFlowTerms.filter (fun k => containsSub (toLowerStr []) k) = []
      from by decide]
    rw [show containsSub [] (str ":=") = false from by decide]
    rw [show containsSub [] (str "=") = false from by decide]
    rw [show containsSub [] (str "←") = false from by decide]
    rw [show funcCallTest [] = false from rfl]
    rw [show arrIdxTest [] = false from rfl]
    rw [show containsSub (toLowerStr []) (str "begin") = false from by decide]
    norm_num [min_def]
  rw [hconf]
  norm_num

/-- Claim C6. The function `extractPaperTitle` never selects a line containing an `"@"`
character or the substring `"arXiv:"`, under either fallback strategy:
whenever a title is returned, it is the clean-up of some input line that
contains neither. -/
theorem C6_extractPaperTitle_never_boilerplate (lines : List Str) (t : Str)
    (h : extractPaperTitle lines = some t) :
    ∃ raw ∈ lines,
      containsSub (trimStr raw) (str "@") = false ∧
      containsSub (trimStr raw) (str "arXiv:") = false ∧
      (t = cleanTitle (trimStr raw) ∨ t = cleanTitle2 (trimStr raw)) := by
  unfold extractPaperTitle at h
  cases h1 : titleFromPatterns (lines.take 50) with
  | some t2 =>
    rw [h1] at h
    cases h
    obtain ⟨raw, hraw, hskip, he⟩ := titleFromPatterns_some _ _ h1
    have hnot := titleSkip_false_no_at hskip
    exact ⟨raw, List.take_subset 50 lines hraw, hnot.1, hnot.2, Or.inl he⟩
  | none =>
    rw [h1] at h
    obtain ⟨raw, hraw, hacc, he⟩ := titleFallback_some _ _ h
    have hnot := titleAccept2_true_no_at hacc
    exact ⟨raw, List.take_subset 30 lines (List.drop_subset 5 _ hraw),
      hnot.1, hnot.2, Or.inr he⟩

theorem C6_extractPaperTitle_never_boilerplate_witness :
    ∃ raw ∈ [str "A Study of Sorting Networks in Practice"],
      containsSub (trimStr raw) (str "@") = false ∧
      containsSub (trimStr raw) (str "arXiv:") = false ∧
      (str "A Study of Sorting Networks in Practice" = cleanTitle (trimStr raw) ∨
       str "A Study of Sorting Networks in Practice" = cleanTitle2 (trimStr raw)) :=
  C6_extractPaperTitle_never_boilerplate
    [str "A Study of Sorting Networks in Practice"]
    (str "A Study of Sorting Networks in Practice") (by decide)

/-- Claim C7. For every noun-phrase extractor and every input text,
`extractPaperKeywords` returns at most 15 terms, without duplicates, none
of length ≤ 3, all lower-case (fixed by lower-casing), each occurring more
than twice among the extracted noun phrases, and listed in non-increasing
order of that frequency. -/
theorem C7_extractPaperKeywords_invariants (nounsOf : Str → List Str) (text : Str) :
    (extractPaperKeywords nounsOf text).length ≤ 15 ∧
    (extractPaperKeywords nounsOf text).Nodup ∧
    (∀ w ∈ extractPaperKeywords nounsOf text,
      3 < w.length ∧ toLowerStr w = w ∧ 2 < countOcc (nounsOf text) w) ∧
    (extractPaperKeywords nounsOf text).Pairwise
      (fun a b => countOcc (nounsOf text) b ≤ countOcc (nounsOf text) a) := by
  obtain ⟨hnd, hmem, -⟩ := buildNounFreq_inv (nounsOf text)
  unfold extractPaperKeywords
  have hperm : List.Perm
      (List.insertionSort scoreGE
        ((buildNounFreq (nounsOf text)).filter (fun p => 2 < p.2)))
      ((buildNounFreq (nounsOf text)).filter (fun p => 2 < p.2)) :=
    List.perm_insertionSort scoreGE _
  have hmem2 : ∀ p ∈ (List.insertionSort scoreGE
      ((buildNounFreq (nounsOf text)).filter (fun p => 2 < p.2))).take 15,
      3 < p.1.length ∧ toLowerStr p.1 = p.1 ∧
        p.2 = countOcc (nounsOf text) p.1 ∧ 2 < p.2 := by
    intro p hp
    have hpFL := hperm.subset (List.take_subset _ _ hp)
    have hpF := List.mem_filter.mp hpFL
    obtain ⟨h1, h2, h3⟩ := hmem p hpF.1
    exact ⟨h1, h2, h3, of_decide_eq_true hpF.2⟩
  refine ⟨?_, ?_, ?_, ?_⟩
  · rw [List.length_map]
    exact List.length_take_le _ _
  · have h3 : (((buildNounFreq (nounsOf text)).filter (fun p => 2 < p.2)).map
        Prod.fst).Nodup :=
      hnd.sublist ((List.filter_sublist _).map _)
    have h4 : ((List.insertionSort scoreGE
        ((buildNounFreq (nounsOf text)).filter (fun p => 2 < p.2))).map
          Prod.fst).Nodup :=
      ((hperm.map Prod.fst).nodup_iff).mpr h3
    exact h4.sublist ((List.take_sublist 15 _).map _)
  · intro w hw
    obtain ⟨p, hp, he⟩ := List.mem_map.mp hw
    obtain ⟨h1, h2, h3, h4⟩ := hmem2 p hp
    subst he
    exact ⟨h1, h2, by rw [← h3]; exact h4⟩
  · rw [List.pairwise_map]
    have htake : (List.Pairwise scoreGE ((List.insertionSort scoreGE
        ((buildNounFreq (nounsOf text)).filter (fun p => 2 < p.2))).take 15)) :=
      List.Pairwise.sublist (List.take_sublist 15 _)
        (List.sorted_insertionSort scoreGE _)
    refine List.Pairwise.imp_of_mem ?_ htake
    intro a b ha hb hr
    obtain ⟨-, -, ha3, -⟩ := hmem2 a ha
    obtain ⟨-, -, hb3, -⟩ := hmem2 b hb
    rw [← ha3, ← hb3]
    exact hr

end Inscribe
